/-
Verification of the sixafter/prng-chacha generator against its
natural-language specification.

The Go sources embedded here are `prng.go` (reader facade, prng instance,
newCipher, asyncRekey) and `config.go` (Config, DefaultConfig, functional
options).  The ChaCha20 primitive itself is out of scope per the spec; a
cipher is modelled as an abstract keystream (a function from absolute byte
position to byte value) together with a current position, and
`XORKeyStream` as XOR against the next window of that keystream.

Machine integers are modelled explicitly: Go `uint64` values as `Nat`
reduced `% 2^64`, Go `int64` / `time.Duration` values as `Int` with
two's-complement wrapping (`wrap64`) where arithmetic can overflow, and
Go `int` loop bounds via `Int.toNat`.

Effects are made explicit: entropy and cipher construction are oracles
(`Nat → Option Cipher`, draw functions), spawning the rekey goroutine is a
ghost Boolean, the rekey worker returns its event trace, and Go panics
(nil dereference, integer division by zero) are explicit outcomes.
-/
import Mathlib

namespace PrngChacha

/-- Two's-complement wrap of an integer into the `int64` range,
modelling Go `int64` overflow. -/
def wrap64 (x : Int) : Int := (x + 2 ^ 63) % 2 ^ 64 - 2 ^ 63

/-- Go conversion `uint64(x)` of an `int64` value: reinterpret modulo `2^64`. -/
def toU64 (x : Int) : Nat := (x % 2 ^ 64).toNat

/-- A ChaCha20 stream cipher instance, abstracted (per the spec, the block
function is an external primitive): `ks n` is the keystream byte at
absolute position `n`, and `pos` the current stream position. -/
structure Cipher where
  ks : Nat → Nat
  pos : Nat

/-- The next `n` keystream bytes of cipher `c`, starting at its position. -/
def ksBytes (c : Cipher) (n : Nat) : List Nat :=
  (List.range n).map fun i => c.ks (c.pos + i)

/-- `stream.XORKeyStream(dst, src)`: returns the bytes written into `dst`
(src XOR keystream) and the advanced cipher. -/
def xorKeyStream (c : Cipher) (src : List Nat) : List Nat × Cipher :=
  (List.zipWith (fun x y => x ^^^ y) src (ksBytes c src.length),
   { c with pos := c.pos + src.length })

/-- `Config` from config.go.  Durations are `Int` nanoseconds (Go
`time.Duration` = `int64`), counters that are Go `int` are `Int`,
`MaxBytesPerKey` (Go `uint64`) is a `Nat`. -/
structure Config where
  MaxBytesPerKey : Nat
  MaxInitRetries : Int
  MaxRekeyAttempts : Int
  MaxRekeyBackoff : Int
  RekeyBackoff : Int
  EnableKeyRotation : Bool
  UseZeroBuffer : Bool
  DefaultBufferSize : Int
  Shards : Int
deriving DecidableEq

/-- config.go constant `maxRekeyAttempts = 5`. -/
def maxRekeyAttemptsD : Int := 5

/-- config.go constant `rekeyBackoff = 100 * time.Millisecond` (ns). -/
def rekeyBackoffD : Int := 100 * 1000000

/-- config.go constant `maxRekeyBackoff = 2 * time.Second` (ns). -/
def maxRekeyBackoffD : Int := 2 * 1000000000

/-- config.go constant `maxBytesPerKey = 1 << 30`. -/
def maxBytesPerKeyD : Nat := 2 ^ 30

/-- config.go constant `defaultBufferSize = 64`. -/
def defaultBufferSizeD : Int := 64

/-- `DefaultConfig()` from config.go; `numCPU` models `runtime.GOMAXPROCS(0)`. -/
def DefaultConfig (numCPU : Int) : Config :=
  { MaxBytesPerKey := maxBytesPerKeyD
    MaxInitRetries := 3
    MaxRekeyAttempts := maxRekeyAttemptsD
    MaxRekeyBackoff := maxRekeyBackoffD
    RekeyBackoff := rekeyBackoffD
    EnableKeyRotation := false
    UseZeroBuffer := false
    DefaultBufferSize := defaultBufferSizeD
    Shards := numCPU }

/-- The recognized functional options of config.go (`With…`). -/
inductive Opt where
  | withMaxBytesPerKey (n : Nat)
  | withMaxInitRetries (r : Int)
  | withMaxRekeyAttempts (r : Int)
  | withMaxRekeyBackoff (d : Int)
  | withRekeyBackoff (d : Int)
  | withEnableKeyRotation (enable : Bool)
  | withZeroBuffer (enable : Bool)
  | withDefaultBufferSize (n : Int)
  | withShards (n : Int)

/-- Application of one functional option to a Config (each `With…` closure
in config.go assigns exactly the one field shown here). -/
def applyOpt (cfg : Config) (o : Opt) : Config :=
  match o with
  | Opt.withMaxBytesPerKey n => { cfg with MaxBytesPerKey := n }
  | Opt.withMaxInitRetries r => { cfg with MaxInitRetries := r }
  | Opt.withMaxRekeyAttempts r => { cfg with MaxRekeyAttempts := r }
  | Opt.withMaxRekeyBackoff d => { cfg with MaxRekeyBackoff := d }
  | Opt.withRekeyBackoff d => { cfg with RekeyBackoff := d }
  | Opt.withEnableKeyRotation b => { cfg with EnableKeyRotation := b }
  | Opt.withZeroBuffer b => { cfg with UseZeroBuffer := b }
  | Opt.withDefaultBufferSize n => { cfg with DefaultBufferSize := n }
  | Opt.withShards n => { cfg with Shards := n }

/-- A `prng` instance (prng.go).  `zeroArr` is the underlying array backing
the `zero` slice (its length is the slice capacity) and `zeroLen` the
current slice length; `usage` is the `uint64` counter; `rekeying` the
0/1 single-flight latch. -/
structure Prng where
  config : Config
  cipher : Cipher
  zeroArr : List Nat
  zeroLen : Nat
  usage : Nat
  rekeying : Bool

/-- Result of `(*prng).Read`: byte count, error (always `none` in the
source), the bytes written into the caller's buffer, the updated instance,
and a ghost flag recording whether `go p.asyncRekey()` was launched. -/
structure ReadResult where
  n : Nat
  err : Option Unit
  out : List Nat
  p : Prng
  spawned : Bool

/-- `(*prng).Read` from prng.go: empty fast path; load cipher; XOR either
the zero scratch buffer (grown on capacity miss, resliced otherwise) or the
caller's buffer in place; then the optional usage accounting and the
CAS-guarded spawn of the rekey worker. -/
def prngRead (p : Prng) (b : List Nat) : ReadResult :=
  let n := b.length
  if n = 0 then ⟨0, none, b, p, false⟩
  else
    let stream := p.cipher
    let step :=
      if p.config.UseZeroBuffer then
        let az : List Nat × Nat :=
          if p.zeroArr.length < n then (List.replicate n 0, n) else (p.zeroArr, n)
        let oc := xorKeyStream stream (az.1.take az.2)
        (oc.1, az.1, az.2, oc.2)
      else
        let oc := xorKeyStream stream b
        (oc.1, p.zeroArr, p.zeroLen, oc.2)
    let p1 : Prng :=
      { p with cipher := step.2.2.2, zeroArr := step.2.1, zeroLen := step.2.2.1 }
    if p.config.EnableKeyRotation then
      let usage1 := (p.usage + n) % 2 ^ 64
      if usage1 > p.config.MaxBytesPerKey then
        if p.rekeying = false then
          ⟨n, none, step.1, { p1 with usage := usage1, rekeying := true }, true⟩
        else
          ⟨n, none, step.1, { p1 with usage := usage1 }, false⟩
      else
        ⟨n, none, step.1, { p1 with usage := usage1 }, false⟩
    else
      ⟨n, none, step.1, p1, false⟩

/-- `newPRNG` from prng.go.  The `newCipher()` call is an oracle outcome
`oc` (entropy / cipher construction may fail); on success the instance
starts with a zero-filled scratch buffer (preallocated only when
`UseZeroBuffer` and `DefaultBufferSize > 0`), usage 0, latch clear. -/
def newPRNG (cfg : Config) (oc : Option Cipher) : Option Prng :=
  match oc with
  | none => none
  | some stream =>
      let zero : List Nat :=
        if cfg.UseZeroBuffer ∧ cfg.DefaultBufferSize > 0 then
          List.replicate cfg.DefaultBufferSize.toNat 0
        else []
      some { config := cfg, cipher := stream, zeroArr := zero,
             zeroLen := zero.length, usage := 0, rekeying := false }

/-- The pool `New` closure: run `newPRNG` up to `MaxInitRetries` times
(`factory` is the `newCipher` oracle indexed by a global call counter
`ctr`; the returned counter counts total factory invocations). -/
def poolNew (cfg : Config) (factory : Nat → Option Cipher) (ctr : Nat) :
    Nat → Option Prng × Nat
  | 0 => (none, ctr)
  | Nat.succ r =>
      match newPRNG cfg (factory ctr) with
      | some p => (some p, ctr + 1)
      | none => poolNew cfg factory (ctr + 1) r

/-- The construction loop of `NewReader` steps 2–4: for each shard create a
pool, eagerly probe it (`Get` on an empty pool invokes `New`), return the
instance to the pool on success, and stop with a pool-initialization error
(carrying `MaxInitRetries` as in the Go error message) on failure. -/
def buildPools (cfg : Config) (factory : Nat → Option Cipher) :
    Nat → Nat → Except Int (List (List Prng)) × Nat
  | 0, ctr => (Except.ok [], ctr)
  | Nat.succ k, ctr =>
      match poolNew cfg factory ctr cfg.MaxInitRetries.toNat with
      | (none, ctr') => (Except.error cfg.MaxInitRetries, ctr')
      | (some p, ctr') =>
          match buildPools cfg factory k ctr' with
          | (Except.ok rest, ctr'') => (Except.ok ([p] :: rest), ctr'')
          | (Except.error e, ctr'') => (Except.error e, ctr'')

/-- The `reader` facade: `config` is the possibly-nil `*Config` pointer,
`poolCfg` the Config captured by the pools' `New` closures, `pools` the
shard array (each pool as a stack of idle instances). -/
structure Reader where
  config : Option Config
  poolCfg : Config
  pools : List (List Prng)

/-- The composed configuration `NewReader` operates on: defaults, options
applied left to right, then the `Shards ≤ 0 → GOMAXPROCS(0)` fixup. -/
def composedCfg (numCPU : Int) (opts : List Opt) : Config :=
  let cfg := opts.foldl applyOpt (DefaultConfig numCPU)
  if cfg.Shards ≤ 0 then { cfg with Shards := numCPU } else cfg

/-- `NewReader` from prng.go: compose the config, build and probe the shard
pools, and wrap them; also returns the total number of cipher-factory
invocations performed by the eager probe. -/
def NewReader (numCPU : Int) (opts : List Opt) (factory : Nat → Option Cipher) :
    Except Int Reader × Nat :=
  let cfg := composedCfg numCPU opts
  match buildPools cfg factory cfg.Shards.toNat 0 with
  | (Except.ok pools, ctr) =>
      (Except.ok { config := some cfg, poolCfg := cfg, pools := pools }, ctr)
  | (Except.error e, ctr) => (Except.error e, ctr)

/-- Package `init()` from prng.go: build the process-wide default reader
with `DefaultConfig()`; a shard whose probe exhausts its retries panics
(`none`).  Note the reader literal `&reader{pools: pools}` sets no
`config` field, so the pointer is nil. -/
def initReader (numCPU : Int) (factory : Nat → Option Cipher) :
    Option Reader × Nat :=
  let cfg := DefaultConfig numCPU
  match buildPools cfg factory cfg.Shards.toNat 0 with
  | (Except.ok pools, ctr) =>
      (some { config := none, poolCfg := cfg, pools := pools }, ctr)
  | (Except.error _, ctr) => (none, ctr)

/-- `(*reader).Config()`: `return *r.config`.  Dereferencing models as
`Option`: `some` is the returned by-value copy, `none` a nil dereference
panic. -/
def readerConfigFn (r : Reader) : Option Config := r.config

/-- The shard chosen by `(*reader).Read`: `shardIndex(n)` (a fast RNG draw
`pick < n`) when more than one pool exists, else shard 0. -/
def shardOf (r : Reader) (pick : Nat) : Nat :=
  if r.pools.length > 1 then pick else 0

/-- Result of `(*reader).Read`: count, error, output bytes, updated reader,
the shard borrowed from (`none` on the empty fast path), and whether the
call panicked (pool refill failed and `Get().(*prng)` hit nil). -/
structure RReadResult where
  n : Nat
  err : Option Unit
  out : List Nat
  r : Reader
  borrowed : Option Nat
  panicked : Bool

/-- `(*reader).Read` from prng.go: empty fast path before any shard
selection; otherwise choose a shard, `Get` an instance (invoking the pool's
`New` retry loop on a miss), delegate to `(*prng).Read`, and `Put` the
instance back (deferred, so on every exit path). -/
def readerRead (r : Reader) (pick : Nat) (factory : Nat → Option Cipher)
    (b : List Nat) : RReadResult :=
  if b.length = 0 then ⟨0, none, b, r, none, false⟩
  else
    let shard := shardOf r pick
    match r.pools.getD shard [] with
    | p :: rest =>
        let res := prngRead p b
        ⟨res.n, res.err, res.out,
         { r with pools := r.pools.set shard (res.p :: rest) },
         some shard, false⟩
    | [] =>
        match poolNew r.poolCfg factory 0 r.poolCfg.MaxInitRetries.toNat with
        | (some p, _) =>
            let res := prngRead p b
            ⟨res.n, res.err, res.out,
             { r with pools := r.pools.set shard [res.p] },
             some shard, false⟩
        | (none, _) => ⟨0, none, [], r, some shard, true⟩

/-- Observable actions of the rekey worker, in program order: the atomic
cipher store, the atomic `usage = 0` store, the zeroization
`*old = chacha20.Cipher{}`, a `time.Sleep` (with its duration), the
deferred clearing of the `rekeying` latch, and the runtime panic raised by
`rnd % uint64(base)` when `uint64(base) = 0`. -/
inductive REvent where
  | storeCipher
  | storeUsageZero
  | zeroOld
  | sleep (d : Int)
  | clearRekeying
  | panicDivZero
deriving DecidableEq

/-- Environment of one rekey worker run: `cipher i` is the outcome of the
`newCipher()` call at loop iteration `i`, and `draw i` the outcome of the
8-byte `rand.Read` at iteration `i` (`some f` supplies bytes
`b[0] = f 0 % 256, …, b[7] = f 7 % 256`). -/
structure RekeyOracle where
  cipher : Nat → Option Cipher
  draw : Nat → Option (Nat → Nat)

/-- `binary.BigEndian.Uint64(b[:])`: the 8 drawn bytes as a big-endian
unsigned 64-bit integer. -/
def beUint64 (f : Nat → Nat) : Nat :=
  (List.range 8).foldl (fun a i => a * 256 + f i % 256) 0

/-- The backoff update at the end of a failed attempt:
`base *= 2; if base > maxBackoff { base = maxBackoff }`, with `int64`
wrapping on the doubling. -/
def stepBase (maxB base : Int) : Int :=
  let b := wrap64 (2 * base)
  if b > maxB then maxB else b

/-- Result of a rekey worker run: the event trace, the final instance, the
cipher value that was zeroized (`some old` exactly on success), and whether
the goroutine panicked (division by zero in the jitter computation). -/
structure RekeyRun where
  events : List REvent
  p : Prng
  zeroed : Option Cipher
  panicked : Bool

/-- The retry loop of `asyncRekey` (prng.go): at iteration `i` capture the
active cipher, attempt `newCipher()`; on success store the new cipher,
store `usage = 0`, zero `*old`, and return; on failure draw 8 entropy
bytes and sleep `base + rnd % uint64(base)` (a runtime panic when
`uint64(base)` is zero), or just `base` when the draw fails, then double
and clamp the backoff.  `fuel` counts the remaining of the
`MaxRekeyAttempts` iterations. -/
def rekeyLoop (O : RekeyOracle) (maxB : Int) (p : Prng) :
    Nat → Nat → Int → RekeyRun
  | 0, _, _ => ⟨[], p, none, false⟩
  | Nat.succ fuel, i, base =>
      let old := p.cipher
      match O.cipher i with
      | some stream =>
          ⟨[REvent.storeCipher, REvent.storeUsageZero, REvent.zeroOld],
           { p with cipher := stream, usage := 0 }, some old, false⟩
      | none =>
          match O.draw i with
          | some f =>
              let rnd := beUint64 f
              let bU := toU64 base
              if bU = 0 then ⟨[REvent.panicDivZero], p, none, true⟩
              else
                let delay := wrap64 (base + wrap64 (Int.ofNat (rnd % bU)))
                let rest := rekeyLoop O maxB p fuel (i + 1) (stepBase maxB base)
                ⟨REvent.sleep delay :: rest.events, rest.p, rest.zeroed,
                 rest.panicked⟩
          | none =>
              let rest := rekeyLoop O maxB p fuel (i + 1) (stepBase maxB base)
              ⟨REvent.sleep base :: rest.events, rest.p, rest.zeroed,
               rest.panicked⟩

/-- The effective maximum backoff used by `asyncRekey`: the library default
(2 s) is substituted only when `MaxRekeyBackoff` is zero. -/
def maxEff (cfg : Config) : Int :=
  if cfg.MaxRekeyBackoff = 0 then maxRekeyBackoffD else cfg.MaxRekeyBackoff

/-- `(*prng).asyncRekey` from prng.go: run the retry loop starting from
`base = RekeyBackoff` (no default substitution for it), then perform the
deferred `rekeying = 0` store — which runs on every exit path, a panic
unwind included. -/
def asyncRekey (O : RekeyOracle) (p : Prng) : RekeyRun :=
  let r := rekeyLoop O (maxEff p.config) p p.config.MaxRekeyAttempts.toNat 0
    p.config.RekeyBackoff
  ⟨r.events ++ [REvent.clearRekeying], { r.p with rekeying := false },
   r.zeroed, r.panicked⟩

/-- Projection of a `NewReader` outcome onto its error payload (the retry
count reported in the pool-initialization error message), for stating
concrete facts decidably. -/
def errOf (e : Except Int Reader) : Option Int :=
  match e with
  | Except.error v => some v
  | Except.ok _ => none

/- ---------------------------------------------------------------------
Concrete objects used by witnesses and counterexamples.
--------------------------------------------------------------------- -/

/-- A concrete cipher: all-zero keystream, position 0. -/
def exCipher : Cipher := ⟨fun _ => 0, 0⟩

/-- A concrete idle instance under the default config (1 CPU). -/
def exPrng : Prng :=
  { config := DefaultConfig 1, cipher := exCipher, zeroArr := [],
    zeroLen := 0, usage := 0, rekeying := false }

/-- A concrete single-shard reader holding `exPrng`. -/
def exReader : Reader :=
  { config := some (DefaultConfig 1), poolCfg := DefaultConfig 1,
    pools := [[exPrng]] }

/-- A cipher factory that always succeeds. -/
def exFactory : Nat → Option Cipher := fun _ => some exCipher

/-- The default config with key rotation on and a 0-byte threshold. -/
def exCfgRot : Config :=
  { DefaultConfig 1 with EnableKeyRotation := true, MaxBytesPerKey := 0 }

/-- A concrete instance with key rotation enabled and a 0-byte threshold. -/
def exPrngRot : Prng := { exPrng with config := exCfgRot }

/-- The default config with the zero-buffer mode enabled. -/
def exCfgZB : Config := { DefaultConfig 1 with UseZeroBuffer := true }

/-- A concrete zero-buffer-mode instance sharing `exCipher`. -/
def exPrngZB : Prng := { exPrng with config := exCfgZB }

/-- The instance produced by `newPRNG` under `exCfgZB` (64-byte zero
scratch buffer). -/
def exPrngZB2 : Prng :=
  { config := exCfgZB, cipher := exCipher,
    zeroArr := List.replicate 64 0, zeroLen := 64, usage := 0,
    rekeying := false }

/-- A concrete idle instance under the default config (2 CPUs). -/
def exPrng2 : Prng :=
  { config := DefaultConfig 2, cipher := exCipher, zeroArr := [],
    zeroLen := 0, usage := 0, rekeying := false }

/-- The sleep duration of one failed rekey attempt when no `int64`
wrapping occurs: `base + rnd % uint64(base)` with the drawn bytes as a
big-endian `uint64`, or exactly `base` when the entropy draw failed. -/
def sleepD (O : RekeyOracle) (i : Nat) (base : Int) : Int :=
  match O.draw i with
  | some g => base + Int.ofNat (beUint64 g % base.toNat)
  | none => base

/-- A config driving the rekey backoff into `int64` overflow:
`RekeyBackoff = MaxRekeyBackoff = 2^62` ns, three attempts. -/
def exCfg62 : Config :=
  { MaxBytesPerKey := maxBytesPerKeyD, MaxInitRetries := 3,
    MaxRekeyAttempts := 3, MaxRekeyBackoff := 2 ^ 62,
    RekeyBackoff := 2 ^ 62, EnableKeyRotation := true,
    UseZeroBuffer := false, DefaultBufferSize := 64, Shards := 1 }

/-- An instance (latch held) under `exCfg62`. -/
def exPrng62 : Prng := { exPrng with config := exCfg62, rekeying := true }

/-- A rekey environment where every cipher construction fails and every
8-byte entropy draw succeeds (returning all-zero bytes). -/
def exOracleFail : RekeyOracle := ⟨fun _ => none, fun _ => some (fun _ => 0)⟩

/-- A rekey environment where cipher construction and the entropy draw
both always fail. -/
def exOracleFailNoDraw : RekeyOracle := ⟨fun _ => none, fun _ => none⟩

/-- A rekey environment where the first cipher construction succeeds. -/
def exOracleOk : RekeyOracle := ⟨fun _ => some exCipher, fun _ => none⟩

/-- A config whose initial backoff (3 ns) exceeds its maximum backoff
(2 ns), with a single rekey attempt. -/
def exCfgB : Config :=
  { exCfg62 with RekeyBackoff := 3, MaxRekeyBackoff := 2, MaxRekeyAttempts := 1 }

/-- An instance (latch held) under `exCfgB`. -/
def exPrngB : Prng := { exPrng with config := exCfgB, rekeying := true }

/-- A config with backoff 1 ns, maximum 4 ns, two attempts. -/
def exCfgBk : Config :=
  { exCfg62 with RekeyBackoff := 1, MaxRekeyBackoff := 4, MaxRekeyAttempts := 2 }

/-- An instance (latch held) under `exCfgBk`. -/
def exPrngBk : Prng := { exPrng with config := exCfgBk, rekeying := true }

/-- A config with a zero initial rekey backoff (the field's zero value is
not substituted by any default). -/
def exCfgZero : Config := { exCfg62 with RekeyBackoff := 0 }

/-- An instance (latch held) under `exCfgZero`. -/
def exPrngZero : Prng := { exPrng with config := exCfgZero, rekeying := true }

/- ---------------------------------------------------------------------
General lemmas about the embedding.
--------------------------------------------------------------------- -/

theorem wrap64_id (x : Int) (h1 : -(2 ^ 63) ≤ x) (h2 : x < 2 ^ 63) :
    wrap64 x = x := by
  have p63 : (2 : Int) ^ 63 = 9223372036854775808 := by norm_num
  have p64 : (2 : Int) ^ 64 = 18446744073709551616 := by norm_num
  have e : ((x + 2 ^ 63) % 2 ^ 64 : Int) = x + 2 ^ 63 :=
    Int.emod_eq_of_lt (by omega) (by omega)
  simp only [wrap64, e]
  omega

theorem toU64_of_range (x : Int) (h0 : 0 ≤ x) (h : x < 2 ^ 64) :
    toU64 x = x.toNat := by
  simp only [toU64]
  rw [Int.emod_eq_of_lt h0 h]

theorem stepBase_eq_min (maxB base : Int) (hb : 0 < base) (hbM : base ≤ maxB)
    (hM : maxB < 2 ^ 62) : stepBase maxB base = min (2 * base) maxB := by
  have p62 : (2 : Int) ^ 62 = 4611686018427387904 := by norm_num
  have p63 : (2 : Int) ^ 63 = 9223372036854775808 := by norm_num
  have hw : wrap64 (2 * base) = 2 * base := wrap64_id _ (by omega) (by omega)
  simp only [stepBase, hw]
  by_cases h : 2 * base > maxB
  · rw [if_pos h, min_def, if_neg (by omega)]
  · rw [if_neg h, min_def, if_pos (by omega)]

theorem min_shift (b M : Int) (hb : 0 < b) (hbM : b ≤ M) (k : Nat) :
    min (min (2 * b) M * 2 ^ k) M = min (b * 2 ^ (k + 1)) M := by
  have hp0 : (0 : Int) < 2 ^ k := pow_pos (by norm_num) k
  have hM0 : (0 : Int) < M := lt_of_lt_of_le hb hbM
  rcases le_or_lt (2 * b) M with h | h
  · rw [min_eq_left h]
    have e : b * 2 ^ (k + 1) = 2 * b * 2 ^ k := by ring
    rw [e]
  · rw [min_eq_right h.le]
    have h1 : M ≤ M * 2 ^ k := le_mul_of_one_le_right hM0.le (by omega)
    rw [min_eq_right h1]
    have h2 : M ≤ b * 2 ^ (k + 1) := by
      have e : b * 2 ^ (k + 1) = 2 * b * 2 ^ k := by ring
      rw [e]
      calc M ≤ 2 * b := h.le
        _ = 2 * b * 1 := by ring
        _ ≤ 2 * b * 2 ^ k :=
            mul_le_mul_of_nonneg_left (by omega) (by omega)
    rw [min_eq_right h2]

theorem ksBytes_length (c : Cipher) (n : Nat) : (ksBytes c n).length = n := by
  simp [ksBytes]

theorem zipWith_xor_zeros (src w : List Nat) (hz : ∀ x ∈ src, x = 0)
    (hl : src.length = w.length) :
    List.zipWith (fun x y => x ^^^ y) src w = w := by
  induction src generalizing w with
  | nil =>
      cases w with
      | nil => rfl
      | cons _ _ => simp at hl
  | cons a s ih =>
      cases w with
      | nil => simp at hl
      | cons b' w' =>
          have ha : a = 0 := hz a (by simp)
          simp only [List.zipWith, ha, Nat.zero_xor, List.cons.injEq, true_and]
          exact ih w' (fun x hx => hz x (by simp [hx])) (by simpa using hl)

theorem xor_left_eq_self (a k : Nat) : a ^^^ k = k ↔ a = 0 := by
  constructor
  · intro h
    have h2 : a ^^^ k ^^^ k = k ^^^ k := by rw [h]
    rwa [Nat.xor_assoc, Nat.xor_self, Nat.xor_zero] at h2
  · intro h
    rw [h, Nat.zero_xor]

theorem zipWith_xor_eq_self_iff (src w : List Nat) (hl : src.length = w.length) :
    List.zipWith (fun x y => x ^^^ y) src w = w ↔ ∀ x ∈ src, x = 0 := by
  induction src generalizing w with
  | nil =>
      cases w with
      | nil => simp
      | cons _ _ => simp at hl
  | cons a s ih =>
      cases w with
      | nil => simp at hl
      | cons b' w' =>
          simp only [List.zipWith, List.cons.injEq, List.mem_cons]
          rw [xor_left_eq_self, ih w' (by simpa using hl)]
          constructor
          · rintro ⟨h1, h2⟩ x hx
            rcases hx with h | h
            · rw [h]; exact h1
            · exact h2 x h
          · intro h
            exact ⟨h a (Or.inl rfl), fun x hx => h x (Or.inr hx)⟩

theorem prngRead_nil (p : Prng) : prngRead p [] = ⟨0, none, [], p, false⟩ := rfl

theorem prngRead_exact (p : Prng) (b : List Nat) :
    (prngRead p b).n = b.length ∧ (prngRead p b).err = none := by
  by_cases h0 : b.length = 0
  · rw [List.length_eq_zero] at h0
    subst h0
    exact ⟨rfl, rfl⟩
  · simp only [prngRead, h0, if_false]
    split
    · split
      · split <;> exact ⟨rfl, rfl⟩
      · exact ⟨rfl, rfl⟩
    · exact ⟨rfl, rfl⟩

theorem prngRead_config (p : Prng) (b : List Nat) :
    (prngRead p b).p.config = p.config := by
  by_cases h0 : b.length = 0
  · rw [List.length_eq_zero] at h0
    subst h0
    rfl
  · simp only [prngRead, h0, if_false]
    split
    · split
      · split <;> rfl
      · rfl
    · rfl

theorem prngRead_usage (p : Prng) (b : List Nat) (h0 : b.length ≠ 0) :
    (p.config.EnableKeyRotation = true →
      (prngRead p b).p.usage = (p.usage + b.length) % 2 ^ 64) ∧
    (p.config.EnableKeyRotation = false →
      (prngRead p b).p.usage = p.usage) := by
  simp only [prngRead, h0, if_false]
  constructor
  · intro hrot
    simp only [hrot, if_true]
    split
    · split <;> rfl
    · rfl
  · intro hrot
    simp only [hrot, Bool.false_eq_true, if_false]

theorem prngRead_spawn (p : Prng) (b : List Nat) (h0 : b.length ≠ 0)
    (hrot : p.config.EnableKeyRotation = true) :
    ((prngRead p b).spawned = true ↔
      ((p.usage + b.length) % 2 ^ 64 > p.config.MaxBytesPerKey ∧
        p.rekeying = false)) ∧
    ((prngRead p b).spawned = true → (prngRead p b).p.rekeying = true) ∧
    ((prngRead p b).spawned = false → (prngRead p b).p.rekeying = p.rekeying) := by
  simp only [prngRead, h0, if_false, hrot, if_true]
  split
  · rename_i ht
    split
    · rename_i hre
      exact ⟨⟨fun _ => ⟨ht, hre⟩, fun _ => rfl⟩, fun _ => rfl, fun hf => Bool.noConfusion hf⟩
    · rename_i hre
      exact ⟨⟨fun hf => Bool.noConfusion hf, fun hand => absurd hand.2 hre⟩,
        fun hf => Bool.noConfusion hf, fun _ => rfl⟩
  · rename_i ht
    exact ⟨⟨fun hf => Bool.noConfusion hf, fun hand => absurd hand.1 ht⟩,
      fun hf => Bool.noConfusion hf, fun _ => rfl⟩

theorem prngRead_no_rotation (p : Prng) (b : List Nat) (h0 : b.length ≠ 0)
    (hrot : p.config.EnableKeyRotation = false) :
    (prngRead p b).spawned = false ∧
    (prngRead p b).p.usage = p.usage ∧
    (prngRead p b).p.rekeying = p.rekeying := by
  simp [prngRead, h0, hrot]

theorem prngRead_out_inplace (p : Prng) (b : List Nat) (h0 : b.length ≠ 0)
    (hz : p.config.UseZeroBuffer = false) :
    (prngRead p b).out =
      List.zipWith (fun x y => x ^^^ y) b (ksBytes p.cipher b.length) := by
  simp only [prngRead, h0, if_false, hz, Bool.false_eq_true]
  split
  · split
    · split <;> rfl
    · rfl
  · rfl

theorem take_all_zero (arr : List Nat) (n : Nat) (hz : ∀ x ∈ arr, x = 0) :
    ∀ x ∈ arr.take n, x = 0 :=
  fun x hx => hz x (List.mem_of_mem_take hx)

theorem prngRead_out_zeromode (p : Prng) (b : List Nat) (h0 : b.length ≠ 0)
    (hz : p.config.UseZeroBuffer = true)
    (hzero : ∀ x ∈ p.zeroArr, x = 0) :
    (prngRead p b).out = ksBytes p.cipher b.length := by
  have key : ∀ arr : List Nat, (∀ x ∈ arr, x = 0) → b.length ≤ arr.length →
      (xorKeyStream p.cipher (arr.take b.length)).1 = ksBytes p.cipher b.length := by
    intro arr hza hlen
    have hlt : (arr.take b.length).length = b.length := by
      simp [List.length_take]
      omega
    simp only [xorKeyStream, hlt]
    exact zipWith_xor_zeros _ _ (take_all_zero arr b.length hza)
      (by rw [hlt, ksBytes_length])
  simp only [prngRead, h0, if_false, hz, if_true]
  by_cases hcap : p.zeroArr.length < b.length
  · simp only [hcap, if_true]
    have hk := key (List.replicate b.length 0) (by simp) (by simp)
    split
    · split
      · split <;> exact hk
      · exact hk
    · exact hk
  · simp only [hcap, if_false]
    have hk := key p.zeroArr hzero (by omega)
    split
    · split
      · split <;> exact hk
      · exact hk
    · exact hk

theorem prngRead_zeroArr_zero (p : Prng) (b : List Nat)
    (hzero : ∀ x ∈ p.zeroArr, x = 0) :
    ∀ x ∈ (prngRead p b).p.zeroArr, x = 0 := by
  by_cases h0 : b.length = 0
  · rw [List.length_eq_zero] at h0
    subst h0
    exact hzero
  · simp only [prngRead, h0, if_false]
    have harr : ∀ x ∈ (if p.config.UseZeroBuffer = true then
        ((xorKeyStream p.cipher
            (List.take
              (if p.zeroArr.length < b.length then (List.replicate b.length 0, b.length)
                else (p.zeroArr, b.length)).2
              (if p.zeroArr.length < b.length then (List.replicate b.length 0, b.length)
                else (p.zeroArr, b.length)).1)).1,
          (if p.zeroArr.length < b.length then (List.replicate b.length 0, b.length)
            else (p.zeroArr, b.length)).1,
          (if p.zeroArr.length < b.length then (List.replicate b.length 0, b.length)
            else (p.zeroArr, b.length)).2,
          (xorKeyStream p.cipher
              (List.take
                (if p.zeroArr.length < b.length then (List.replicate b.length 0, b.length)
                  else (p.zeroArr, b.length)).2
                (if p.zeroArr.length < b.length then (List.replicate b.length 0, b.length)
                  else (p.zeroArr, b.length)).1)).2)
        else ((xorKeyStream p.cipher b).1, p.zeroArr, p.zeroLen,
          (xorKeyStream p.cipher b).2)).2.1, x = 0 := by
      split
      · by_cases hcap : p.zeroArr.length < b.length
        · simp only [hcap, if_true]
          intro x hx
          exact List.eq_of_mem_replicate hx
        · simp only [hcap, if_false]
          exact hzero
      · exact hzero
    split
    · split
      · split <;> exact harr
      · exact harr
    · exact harr

theorem readerRead_nil (r : Reader) (pick : Nat) (factory : Nat → Option Cipher) :
    readerRead r pick factory [] = ⟨0, none, [], r, none, false⟩ := rfl

theorem readerRead_pos (r : Reader) (pick : Nat) (factory : Nat → Option Cipher)
    (b : List Nat) (h0 : b.length ≠ 0)
    (hpool : r.pools.getD (shardOf r pick) [] ≠ []) :
    (readerRead r pick factory b).n = b.length ∧
    (readerRead r pick factory b).err = none ∧
    (readerRead r pick factory b).panicked = false ∧
    (readerRead r pick factory b).borrowed = some (shardOf r pick) := by
  simp only [readerRead, h0, if_false]
  cases hp : r.pools.getD (shardOf r pick) [] with
  | nil => exact absurd hp hpool
  | cons q rest =>
      simp only [hp]
      refine ⟨(prngRead_exact q b).1, (prngRead_exact q b).2, ?_, ?_⟩
      · trivial
      · trivial

/- ---------------------------------------------------------------------
C1
--------------------------------------------------------------------- -/

/-- C1: for every buffer, the generator's `Read` and the facade's `Read`
are total and exact — a non-empty read returns `(len(dst), nil)` with no
error and no panic; an empty read returns `(0, nil)` immediately, leaving
the generator state untouched and, at the facade, selecting no shard and
borrowing from no pool (`borrowed = none`, reader unchanged).  The facade
part assumes the chosen shard's pool can supply an instance. -/
theorem claim_C1_read_total_exact (r : Reader) (pick : Nat)
    (factory : Nat → Option Cipher) (b : List Nat) (p : Prng)
    (hpool : r.pools.getD (shardOf r pick) [] ≠ []) :
    ((prngRead p b).n = b.length ∧ (prngRead p b).err = none) ∧
    prngRead p [] = ⟨0, none, [], p, false⟩ ∧
    (b.length ≠ 0 →
      (readerRead r pick factory b).n = b.length ∧
      (readerRead r pick factory b).err = none ∧
      (readerRead r pick factory b).panicked = false ∧
      (readerRead r pick factory b).borrowed = some (shardOf r pick)) ∧
    readerRead r pick factory [] = ⟨0, none, [], r, none, false⟩ :=
  ⟨prngRead_exact p b, prngRead_nil p,
   fun h0 => readerRead_pos r pick factory b h0 hpool,
   readerRead_nil r pick factory⟩

/-- Witness for C1 at a concrete reader, instance and buffers. -/
theorem claim_C1_witness :
    (readerRead exReader 0 exFactory [7, 7]).n = 2 ∧
    (readerRead exReader 0 exFactory []).borrowed = none := by
  have h := claim_C1_read_total_exact exReader 0 exFactory [7, 7] exPrng
    (List.cons_ne_nil _ _)
  exact ⟨(h.2.2.1 (by decide)).1, by rw [h.2.2.2]⟩

/- ---------------------------------------------------------------------
C4
--------------------------------------------------------------------- -/

/-- C4: on every non-empty read of length `n` with key rotation enabled,
`usage` is atomically increased by `n` (mod `2^64`), and the rekey worker
is spawned iff the post-increment usage exceeds `MaxBytesPerKey` and the
CAS of `rekeying` from 0 to 1 succeeds (`rekeying` was 0); when no spawn
happens the latch is unchanged, on a spawn it is set.  With rotation
disabled, `usage` and the latch are untouched and no worker is spawned. -/
theorem claim_C4_usage_and_spawn (p : Prng) (b : List Nat) (h0 : b.length ≠ 0) :
    (p.config.EnableKeyRotation = true →
      (prngRead p b).p.usage = (p.usage + b.length) % 2 ^ 64 ∧
      ((prngRead p b).spawned = true ↔
        ((p.usage + b.length) % 2 ^ 64 > p.config.MaxBytesPerKey ∧
          p.rekeying = false)) ∧
      ((prngRead p b).spawned = true → (prngRead p b).p.rekeying = true) ∧
      ((prngRead p b).spawned = false →
        (prngRead p b).p.rekeying = p.rekeying)) ∧
    (p.config.EnableKeyRotation = false →
      (prngRead p b).p.usage = p.usage ∧
      (prngRead p b).spawned = false ∧
      (prngRead p b).p.rekeying = p.rekeying) := by
  constructor
  · intro hrot
    exact ⟨(prngRead_usage p b h0).1 hrot, prngRead_spawn p b h0 hrot⟩
  · intro hrot
    rcases prngRead_no_rotation p b h0 hrot with ⟨hs, hu, hr⟩
    exact ⟨hu, hs, hr⟩

/-- Witness for C4: with a 0-byte threshold and rotation on, a 1-byte read
sets usage to 1 and spawns the worker; with rotation off it does not. -/
theorem claim_C4_witness :
    (prngRead exPrngRot [5]).p.usage = (0 + 1) % 2 ^ 64 ∧
    (prngRead exPrngRot [5]).spawned = true ∧
    (prngRead exPrng [5]).spawned = false := by
  have h1 := (claim_C4_usage_and_spawn exPrngRot [5] (by decide)).1 rfl
  have h2 := (claim_C4_usage_and_spawn exPrng [5] (by decide)).2 rfl
  exact ⟨h1.1, h1.2.1.mpr (by decide), h2.2.1⟩

/- ---------------------------------------------------------------------
C2
--------------------------------------------------------------------- -/

theorem newPRNG_zeroArr (cfg : Config) (c : Cipher) (q : Prng)
    (hnew : newPRNG cfg (some c) = some q) : ∀ x ∈ q.zeroArr, x = 0 := by
  simp only [newPRNG, Option.some.injEq] at hnew
  subst hnew
  intro x hx
  dsimp only at hx
  split at hx
  · exact List.eq_of_mem_replicate hx
  · exact absurd hx (List.not_mem_nil x)

/-- Counterexample to C2 as stated: with the all-zero keystream cipher
`exCipher`, reading the one-byte buffer `[1]` yields `[0]` in zero-buffer
mode but `[1]` in in-place mode — the two modes do not produce the
identical byte stream for every input buffer. -/
theorem claim_C2_counterexample :
    ¬((prngRead exPrngZB [1]).out = (prngRead exPrng [1]).out) := by decide

/-- C2 (amended): the zero-buffer path is not a pure knob for arbitrary
input buffers.  With an all-zero scratch buffer and a common cipher,
zero-buffer mode writes exactly the next `n` keystream bytes, in-place
mode writes `dst XOR keystream`, and the two modes produce the identical
byte stream precisely when the input buffer is all zeros. -/
theorem claim_C2_modes_agree_iff_zero (p : Prng) (b : List Nat)
    (h0 : b.length ≠ 0) (hz : p.config.UseZeroBuffer = true)
    (hzero : ∀ x ∈ p.zeroArr, x = 0) :
    (prngRead p b).out = ksBytes p.cipher b.length ∧
    (prngRead { p with config := { p.config with UseZeroBuffer := false } } b).out
      = List.zipWith (fun x y => x ^^^ y) b (ksBytes p.cipher b.length) ∧
    ((prngRead { p with config := { p.config with UseZeroBuffer := false } } b).out
      = (prngRead p b).out ↔ ∀ x ∈ b, x = 0) := by
  have h1 := prngRead_out_zeromode p b h0 hz hzero
  have h2 := prngRead_out_inplace
    { p with config := { p.config with UseZeroBuffer := false } } b h0 rfl
  refine ⟨h1, h2, ?_⟩
  rw [h1, h2]
  exact zipWith_xor_eq_self_iff b (ksBytes p.cipher b.length)
    (by rw [ksBytes_length])

/-- Witness for C2 (amended) at a concrete instance and buffer. -/
theorem claim_C2_witness :
    (prngRead exPrngZB [0, 0]).out = ksBytes exCipher 2 ∧
    ((prngRead exPrng [0, 0]).out = (prngRead exPrngZB [0, 0]).out) := by
  have h := claim_C2_modes_agree_iff_zero exPrngZB [0, 0] (by decide) rfl
    (by intro x hx; exact absurd hx (List.not_mem_nil x))
  exact ⟨h.1, h.2.2.mpr (by decide)⟩

/- ---------------------------------------------------------------------
C10
--------------------------------------------------------------------- -/

/-- C10: the zero scratch buffer contains only zero bytes before and after
every read — `newPRNG` allocates it zero-filled, and a read either
replaces it by a fresh zero-filled allocation or reslices it, while
`XORKeyStream` only reads from it — hence in zero-buffer mode the bytes
written to `dst` are exactly the next `n` keystream bytes, independent of
`dst`'s prior contents. -/
theorem claim_C10_scratch_invariant (cfg : Config) (oc : Option Cipher)
    (p q : Prng) (b : List Nat)
    (hnew : newPRNG cfg oc = some q)
    (hzero : ∀ x ∈ p.zeroArr, x = 0) (h0 : b.length ≠ 0)
    (hz : p.config.UseZeroBuffer = true) :
    (∀ x ∈ q.zeroArr, x = 0) ∧
    (∀ x ∈ (prngRead p b).p.zeroArr, x = 0) ∧
    (prngRead p b).out = ksBytes p.cipher b.length := by
  refine ⟨?_, prngRead_zeroArr_zero p b hzero,
    prngRead_out_zeromode p b h0 hz hzero⟩
  cases oc with
  | none => exact Option.noConfusion hnew
  | some c => exact newPRNG_zeroArr cfg c q hnew

/-- Witness for C10 at the concrete zero-buffer config and instance. -/
theorem claim_C10_witness :
    (∀ x ∈ exPrngZB2.zeroArr, x = 0) ∧
    (prngRead exPrngZB [9]).out = ksBytes exCipher 1 := by
  have h := claim_C10_scratch_invariant exCfgZB (some exCipher) exPrngZB
    exPrngZB2 [9] rfl (by intro x hx; exact absurd hx (List.not_mem_nil x))
    (by decide) rfl
  exact ⟨h.1, h.2.2⟩

/- ---------------------------------------------------------------------
Pool construction lemmas.
--------------------------------------------------------------------- -/

theorem poolNew_fail (cfg : Config) (factory : Nat → Option Cipher)
    (hf : ∀ k, factory k = none) :
    ∀ fuel ctr, poolNew cfg factory ctr fuel = (none, ctr + fuel) := by
  intro fuel
  induction fuel with
  | zero => intro ctr; rfl
  | succ r ih =>
      intro ctr
      have hn : newPRNG cfg (factory ctr) = none := by rw [hf ctr]; rfl
      simp only [poolNew, hn]
      rw [ih (ctr + 1)]
      congr 1
      omega

theorem poolNew_first_success (cfg : Config) (factory : Nat → Option Cipher)
    (ctr fuel : Nat) (c : Cipher) (hc : factory ctr = some c) :
    poolNew cfg factory ctr (fuel + 1) = (newPRNG cfg (some c), ctr + 1) := by
  simp only [poolNew, hc]
  rfl

theorem buildPools_fail (cfg : Config) (factory : Nat → Option Cipher)
    (hf : ∀ k, factory k = none) (m ctr : Nat) :
    buildPools cfg factory (m + 1) ctr =
      (Except.error cfg.MaxInitRetries, ctr + cfg.MaxInitRetries.toNat) := by
  simp only [buildPools, poolNew_fail cfg factory hf]

theorem buildPools_ok (cfg : Config) (factory : Nat → Option Cipher)
    (hret : 0 < cfg.MaxInitRetries) (hf : ∀ k, (factory k).isSome = true) :
    ∀ k ctr, buildPools cfg factory k ctr =
      (Except.ok ((List.range k).map fun i =>
        [(newPRNG cfg (factory (ctr + i))).getD exPrng]), ctr + k) := by
  intro k
  induction k with
  | zero => intro ctr; rfl
  | succ k ih =>
      intro ctr
      obtain ⟨m, hm⟩ : ∃ m, cfg.MaxInitRetries.toNat = m + 1 :=
        ⟨cfg.MaxInitRetries.toNat - 1, by omega⟩
      obtain ⟨c, hc⟩ : ∃ c, factory ctr = some c :=
        Option.isSome_iff_exists.mp (hf ctr)
      have hq : ∃ q, newPRNG cfg (some c) = some q := ⟨_, rfl⟩
      obtain ⟨q, hqe⟩ := hq
      simp only [buildPools, hm, poolNew_first_success cfg factory ctr m c hc,
        hqe, ih (ctr + 1)]
      have hrange : (List.range (k + 1)).map
          (fun i => [(newPRNG cfg (factory (ctr + i))).getD exPrng]) =
          [(newPRNG cfg (factory (ctr + 0))).getD exPrng] ::
          (List.range k).map
            (fun i => [(newPRNG cfg (factory (ctr + 1 + i))).getD exPrng]) := by
        rw [List.range_succ_eq_map, List.map_cons, List.map_map]
        refine congrArg₂ _ rfl (List.map_congr_left ?_)
        intro i _
        have : ctr + (i + 1) = ctr + 1 + i := by omega
        simp [Function.comp, this]
      rw [hrange]
      have hg : (newPRNG cfg (factory (ctr + 0))).getD exPrng = q := by
        rw [Nat.add_zero, hc, hqe]
        rfl
      rw [hg]
      congr 1
      omega

/- ---------------------------------------------------------------------
C5
--------------------------------------------------------------------- -/

/-- C5: with a cipher factory that always fails, `NewReader` invokes the
factory exactly `MaxInitRetries` times (for the first probed shard) and
returns a pool-initialization error carrying that retry count — it does
not panic; with a factory that always succeeds, the eager probe invokes
each shard's factory exactly once and each shard's pool ends up holding
exactly the instance built from its own factory call. -/
theorem claim_C5_eager_probe (numCPU : Int) (opts : List Opt)
    (factory : Nat → Option Cipher)
    (hsh : 0 < (composedCfg numCPU opts).Shards)
    (hret : 0 < (composedCfg numCPU opts).MaxInitRetries) :
    ((∀ k, factory k = none) →
      NewReader numCPU opts factory =
        (Except.error (composedCfg numCPU opts).MaxInitRetries,
         (composedCfg numCPU opts).MaxInitRetries.toNat)) ∧
    ((∀ k, (factory k).isSome = true) →
      (NewReader numCPU opts factory).2 =
        (composedCfg numCPU opts).Shards.toNat ∧
      ∃ r, (NewReader numCPU opts factory).1 = Except.ok r ∧
        r.pools = (List.range (composedCfg numCPU opts).Shards.toNat).map
          fun i => [(newPRNG (composedCfg numCPU opts) (factory i)).getD exPrng]) := by
  obtain ⟨m, hm⟩ : ∃ m, (composedCfg numCPU opts).Shards.toNat = m + 1 :=
    ⟨(composedCfg numCPU opts).Shards.toNat - 1, by omega⟩
  constructor
  · intro hf
    simp only [NewReader, hm,
      buildPools_fail (composedCfg numCPU opts) factory hf m 0, Nat.zero_add]
  · intro hf
    have hb := buildPools_ok (composedCfg numCPU opts) factory hret hf
      (composedCfg numCPU opts).Shards.toNat 0
    simp only [NewReader, hb, Nat.zero_add]
    exact ⟨by trivial, _, rfl, by simp⟩

/-- Witness for C5: two shards, three retries; the failing factory is
called exactly 3 times and yields the pool-init error; the succeeding
factory is called exactly twice (once per shard). -/
theorem claim_C5_witness :
    (NewReader 2 [] (fun _ => none)).2 = 3 ∧
    errOf (NewReader 2 [] (fun _ => none)).1 = some 3 ∧
    (NewReader 2 [] exFactory).2 = 2 := by
  have ha := (claim_C5_eager_probe 2 [] (fun _ => none) (by decide)
    (by decide)).1 (fun _ => rfl)
  have hb := (claim_C5_eager_probe 2 [] exFactory (by decide)
    (by decide)).2 (fun _ => rfl)
  refine ⟨?_, ?_, hb.1⟩
  · rw [ha]
    rfl
  · rw [ha]
    rfl

/- ---------------------------------------------------------------------
C6
--------------------------------------------------------------------- -/

/-- C6: options are applied left to right over the defaults; each
recognized option overwrites exactly its one field (the record-update
equations below say precisely that: the named field becomes the payload,
every other field is unchanged); a non-positive `Shards` at the end of
option application is replaced by the CPU count; and the config a
successfully constructed reader reports is exactly this composed value. -/
theorem claim_C6_config_roundtrip (numCPU : Int) (opts : List Opt)
    (factory : Nat → Option Cipher) (cfg : Config)
    (hret : 0 < (composedCfg numCPU opts).MaxInitRetries)
    (hf : ∀ k, (factory k).isSome = true) :
    (∃ r, (NewReader numCPU opts factory).1 = Except.ok r ∧
      readerConfigFn r = some (composedCfg numCPU opts)) ∧
    composedCfg numCPU opts =
      (if (opts.foldl applyOpt (DefaultConfig numCPU)).Shards ≤ 0 then
        { opts.foldl applyOpt (DefaultConfig numCPU) with Shards := numCPU }
      else opts.foldl applyOpt (DefaultConfig numCPU)) ∧
    (∀ n, applyOpt cfg (Opt.withMaxBytesPerKey n) =
      { cfg with MaxBytesPerKey := n }) ∧
    (∀ r', applyOpt cfg (Opt.withMaxInitRetries r') =
      { cfg with MaxInitRetries := r' }) ∧
    (∀ r', applyOpt cfg (Opt.withMaxRekeyAttempts r') =
      { cfg with MaxRekeyAttempts := r' }) ∧
    (∀ d, applyOpt cfg (Opt.withMaxRekeyBackoff d) =
      { cfg with MaxRekeyBackoff := d }) ∧
    (∀ d, applyOpt cfg (Opt.withRekeyBackoff d) =
      { cfg with RekeyBackoff := d }) ∧
    (∀ e, applyOpt cfg (Opt.withEnableKeyRotation e) =
      { cfg with EnableKeyRotation := e }) ∧
    (∀ e, applyOpt cfg (Opt.withZeroBuffer e) =
      { cfg with UseZeroBuffer := e }) ∧
    (∀ n, applyOpt cfg (Opt.withDefaultBufferSize n) =
      { cfg with DefaultBufferSize := n }) ∧
    (∀ n, applyOpt cfg (Opt.withShards n) = { cfg with Shards := n }) := by
  refine ⟨?_, rfl, fun _ => rfl, fun _ => rfl, fun _ => rfl, fun _ => rfl,
    fun _ => rfl, fun _ => rfl, fun _ => rfl, fun _ => rfl, fun _ => rfl⟩
  have hb := buildPools_ok (composedCfg numCPU opts) factory hret hf
    (composedCfg numCPU opts).Shards.toNat 0
  simp only [NewReader, hb]
  exact ⟨_, rfl, rfl⟩

/-- Witness for C6: a concrete option list (shards 4, rotation on) applied
over the defaults with one CPU. -/
theorem claim_C6_witness :
    (∃ r, (NewReader 1 [Opt.withShards 4, Opt.withEnableKeyRotation true]
        exFactory).1 = Except.ok r ∧
      readerConfigFn r =
        some { DefaultConfig 1 with Shards := 4, EnableKeyRotation := true }) ∧
    applyOpt (DefaultConfig 1) (Opt.withShards 4) =
      { DefaultConfig 1 with Shards := 4 } := by
  have h := claim_C6_config_roundtrip 1
    [Opt.withShards 4, Opt.withEnableKeyRotation true] exFactory
    (DefaultConfig 1) (by decide) (fun _ => rfl)
  obtain ⟨⟨r, hr, hc⟩, -⟩ := h
  refine ⟨⟨r, hr, ?_⟩, rfl⟩
  rw [hc]
  rfl

/- ---------------------------------------------------------------------
C7
--------------------------------------------------------------------- -/

theorem rekeyLoop_config (O : RekeyOracle) (maxB : Int) (p : Prng) :
    ∀ fuel i base, (rekeyLoop O maxB p fuel i base).p.config = p.config := by
  intro fuel
  induction fuel with
  | zero => intro i base; rfl
  | succ f ih =>
      intro i base
      simp only [rekeyLoop]
      cases hc : O.cipher i with
      | some c => rfl
      | none =>
          cases hd : O.draw i with
          | some g =>
              dsimp only
              split
              · rfl
              · exact ih (i + 1) (stepBase maxB base)
          | none =>
              dsimp only
              exact ih (i + 1) (stepBase maxB base)

theorem asyncRekey_config (O : RekeyOracle) (p : Prng) :
    (asyncRekey O p).p.config = p.config :=
  rekeyLoop_config O (maxEff p.config) p p.config.MaxRekeyAttempts.toNat 0
    p.config.RekeyBackoff

theorem readerRead_rconfig (r : Reader) (pick : Nat)
    (factory : Nat → Option Cipher) (b : List Nat) :
    (readerRead r pick factory b).r.config = r.config := by
  by_cases h0 : b.length = 0
  · simp [readerRead, h0]
  · simp only [readerRead, h0, if_false]
    cases hp : r.pools.getD (shardOf r pick) [] with
    | cons q rest => simp only [hp]
    | nil =>
        simp only [hp]
        cases hq : poolNew r.poolCfg factory 0 r.poolCfg.MaxInitRetries.toNat
          with
        | mk a ctr' =>
            cases a with
            | some q => rfl
            | none => rfl

/-- Counterexample to C7 as stated: the process-wide default reader built
by `init()` succeeds, yet its `config` pointer is nil
(`&reader{pools: pools}` sets no config field), so `Config()` on it
dereferences nil instead of returning a by-value copy. -/
theorem claim_C7_counterexample :
    ((initReader 4 exFactory).1).map readerConfigFn = some none := rfl

/-- C7 (amended): no operation mutates a Config after construction — the
generator's read, the rekey worker, and the facade's read all leave the
instance's and the reader's Config untouched — and for every reader built
by `NewReader`, `Config()` returns the stored immutable composed Config by
value.  (The `init()`-built default reader is excluded: its config pointer
is nil, see the counterexample.) -/
theorem claim_C7_config_frame (numCPU : Int) (opts : List Opt)
    (factory : Nat → Option Cipher) (r : Reader)
    (hok : (NewReader numCPU opts factory).1 = Except.ok r) :
    readerConfigFn r = some (composedCfg numCPU opts) ∧
    (∀ p b, (prngRead p b).p.config = p.config) ∧
    (∀ O p, (asyncRekey O p).p.config = p.config) ∧
    (∀ r' pick fac b, (readerRead r' pick fac b).r.config = r'.config) := by
  refine ⟨?_, prngRead_config, asyncRekey_config, readerRead_rconfig⟩
  simp only [NewReader] at hok
  cases hb : buildPools (composedCfg numCPU opts) factory
      (composedCfg numCPU opts).Shards.toNat 0 with
  | mk res ctr =>
      rw [hb] at hok
      cases res with
      | ok pools =>
          simp only at hok
          cases hok
          rfl
      | error e => exact Except.noConfusion hok

/-- Witness for C7 (amended) at a concrete `NewReader` result. -/
theorem claim_C7_witness :
    readerConfigFn
        { config := some (DefaultConfig 2), poolCfg := DefaultConfig 2,
          pools := [[exPrng2], [exPrng2]] } = some (composedCfg 2 []) ∧
    (prngRead exPrng [3]).p.config = exPrng.config := by
  have h := claim_C7_config_frame 2 [] exFactory
    { config := some (DefaultConfig 2), poolCfg := DefaultConfig 2,
      pools := [[exPrng2], [exPrng2]] } (by rfl)
  exact ⟨h.1, h.2.1 exPrng [3]⟩

/- ---------------------------------------------------------------------
Rekey-loop lemmas.
--------------------------------------------------------------------- -/

theorem rekeyLoop_all_fail (O : RekeyOracle) (maxB : Int) (p : Prng)
    (hM : maxB < 2 ^ 62) :
    ∀ fuel i base, 0 < base → base ≤ maxB →
      (∀ k, k < fuel → O.cipher (i + k) = none) →
      rekeyLoop O maxB p fuel i base =
        ⟨(List.range fuel).map (fun k =>
            REvent.sleep (sleepD O (i + k) (min (base * 2 ^ k) maxB))),
         p, none, false⟩ := by
  intro fuel
  induction fuel with
  | zero => intro i base _ _ _; rfl
  | succ f ih =>
      intro i base hb hbM hfail
      have hM0 : (0 : Int) < maxB := lt_of_lt_of_le hb hbM
      have p62 : (2 : Int) ^ 62 = 4611686018427387904 := by norm_num
      have p63 : (2 : Int) ^ 63 = 9223372036854775808 := by norm_num
      have p64 : (2 : Int) ^ 64 = 18446744073709551616 := by norm_num
      have hc : O.cipher i = none := by
        have := hfail 0 (Nat.succ_pos f)
        rwa [Nat.add_zero] at this
      have hstep : stepBase maxB base = min (2 * base) maxB :=
        stepBase_eq_min maxB base hb hbM hM
      have hb' : 0 < min (2 * base) maxB := lt_min (by omega) hM0
      have hbM' : min (2 * base) maxB ≤ maxB := min_le_right _ _
      have hfail' : ∀ k, k < f → O.cipher (i + 1 + k) = none := by
        intro k hk
        have := hfail (k + 1) (by omega)
        rwa [show i + (k + 1) = i + 1 + k by omega] at this
      have htail := ih (i + 1) (min (2 * base) maxB) hb' hbM' hfail'
      have hrange : (List.range (f + 1)).map (fun k =>
          REvent.sleep (sleepD O (i + k) (min (base * 2 ^ k) maxB))) =
          REvent.sleep (sleepD O i base) ::
          (List.range f).map (fun k =>
            REvent.sleep (sleepD O (i + 1 + k)
              (min (min (2 * base) maxB * 2 ^ k) maxB))) := by
        rw [List.range_succ_eq_map, List.map_cons, List.map_map]
        refine congrArg₂ _ ?_ (List.map_congr_left ?_)
        · rw [Nat.add_zero, pow_zero, mul_one, min_eq_left hbM]
        · intro k _
          have e1 : i + (k + 1) = i + 1 + k := by omega
          have e2 : min (base * 2 ^ (k + 1)) maxB =
              min (min (2 * base) maxB * 2 ^ k) maxB :=
            (min_shift base maxB hb hbM k).symm
          simp [Function.comp, e1, e2]
      simp only [rekeyLoop, hc]
      cases hd : O.draw i with
      | none =>
          dsimp only
          rw [hstep, htail, hrange,
            show sleepD O i base = base by simp [sleepD, hd]]
      | some g =>
          dsimp only
          have ht64 : toU64 base = base.toNat :=
            toU64_of_range base (by omega) (by omega)
          have htnz : ¬(toU64 base = 0) := by rw [ht64]; omega
          have hmod : beUint64 g % base.toNat < base.toNat :=
            Nat.mod_lt _ (by omega)
          have hcast : (Int.ofNat (beUint64 g % base.toNat)) < base := by
            have h1 := Int.ofNat_lt.mpr hmod
            rwa [Int.toNat_of_nonneg hb.le] at h1
          have hcast0 : (0 : Int) ≤ Int.ofNat (beUint64 g % base.toNat) :=
            Int.ofNat_nonneg _
          have w1 : wrap64 (Int.ofNat (beUint64 g % toU64 base)) =
              Int.ofNat (beUint64 g % base.toNat) := by
            rw [ht64]
            exact wrap64_id _ (by omega) (by omega)
          have w2 : wrap64 (base + Int.ofNat (beUint64 g % base.toNat)) =
              base + Int.ofNat (beUint64 g % base.toNat) :=
            wrap64_id _ (by omega) (by omega)
          rw [if_neg htnz, w1, w2, hstep, htail, hrange,
            show sleepD O i base = base + Int.ofNat (beUint64 g % base.toNat)
              by simp [sleepD, hd]]

theorem rekeyLoop_no_panic (O : RekeyOracle) (maxB : Int) (p : Prng)
    (hM : maxB < 2 ^ 62) :
    ∀ fuel i base, 0 < base → base ≤ maxB →
      (rekeyLoop O maxB p fuel i base).panicked = false := by
  intro fuel
  induction fuel with
  | zero => intro i base _ _; rfl
  | succ f ih =>
      intro i base hb hbM
      have hM0 : (0 : Int) < maxB := lt_of_lt_of_le hb hbM
      have p62 : (2 : Int) ^ 62 = 4611686018427387904 := by norm_num
      have p64 : (2 : Int) ^ 64 = 18446744073709551616 := by norm_num
      have hb' : 0 < min (2 * base) maxB := lt_min (by omega) hM0
      have hbM' : min (2 * base) maxB ≤ maxB := min_le_right _ _
      have hstep : stepBase maxB base = min (2 * base) maxB :=
        stepBase_eq_min maxB base hb hbM hM
      simp only [rekeyLoop]
      cases hc : O.cipher i with
      | some c => rfl
      | none =>
          cases hd : O.draw i with
          | some g =>
              dsimp only
              have htnz : ¬(toU64 base = 0) := by
                rw [toU64_of_range base (by omega) (by omega)]
                omega
              rw [if_neg htnz]
              dsimp only
              rw [hstep]
              exact ih (i + 1) (min (2 * base) maxB) hb' hbM'
          | none =>
              dsimp only
              rw [hstep]
              exact ih (i + 1) (min (2 * base) maxB) hb' hbM'

theorem rekeyLoop_success (O : RekeyOracle) (maxB : Int) (p : Prng) :
    ∀ fuel i base,
      (rekeyLoop O maxB p fuel i base).zeroed.isSome = true →
      ∃ pre, (∀ e ∈ pre, ∃ d, e = REvent.sleep d) ∧
        (rekeyLoop O maxB p fuel i base).events =
          pre ++ [REvent.storeCipher, REvent.storeUsageZero, REvent.zeroOld] ∧
        (rekeyLoop O maxB p fuel i base).zeroed = some p.cipher ∧
        (∃ j, O.cipher j = some (rekeyLoop O maxB p fuel i base).p.cipher) ∧
        (rekeyLoop O maxB p fuel i base).p.usage = 0 ∧
        (rekeyLoop O maxB p fuel i base).p.rekeying = p.rekeying := by
  intro fuel
  induction fuel with
  | zero =>
      intro i base h
      exact absurd h (by simp [rekeyLoop])
  | succ f ih =>
      intro i base h
      cases hc : O.cipher i with
      | some c =>
          refine ⟨[], by simp, ?_, ?_, ⟨i, ?_⟩, ?_, ?_⟩ <;>
            simp [rekeyLoop, hc]
      | none =>
          cases hd : O.draw i with
          | some g =>
              by_cases hz : toU64 base = 0
              · exfalso
                revert h
                simp [rekeyLoop, hc, hd, hz]
              · have h' : (rekeyLoop O maxB p f (i + 1)
                    (stepBase maxB base)).zeroed.isSome = true := by
                  revert h
                  simp [rekeyLoop, hc, hd, hz]
                obtain ⟨pre, hsl, hev, hzd, hj, hus, hrk⟩ :=
                  ih (i + 1) (stepBase maxB base) h'
                refine ⟨REvent.sleep (wrap64 (base +
                    wrap64 (Int.ofNat (beUint64 g % toU64 base)))) :: pre,
                  ?_, ?_, ?_, ?_, ?_, ?_⟩
                · intro e he
                  rcases List.mem_cons.mp he with he | he
                  · exact ⟨_, he⟩
                  · exact hsl e he
                · simp [rekeyLoop, hc, hd, hz, hev]
                · simp [rekeyLoop, hc, hd, hz, hzd]
                · obtain ⟨j, hjj⟩ := hj
                  exact ⟨j, by simpa [rekeyLoop, hc, hd, hz] using hjj⟩
                · simp [rekeyLoop, hc, hd, hz, hus]
                · simp [rekeyLoop, hc, hd, hz, hrk]
          | none =>
              have h' : (rekeyLoop O maxB p f (i + 1)
                  (stepBase maxB base)).zeroed.isSome = true := by
                revert h
                simp [rekeyLoop, hc, hd]
              obtain ⟨pre, hsl, hev, hzd, hj, hus, hrk⟩ :=
                ih (i + 1) (stepBase maxB base) h'
              refine ⟨REvent.sleep base :: pre, ?_, ?_, ?_, ?_, ?_, ?_⟩
              · intro e he
                rcases List.mem_cons.mp he with he | he
                · exact ⟨_, he⟩
                · exact hsl e he
              · simp [rekeyLoop, hc, hd, hev]
              · simp [rekeyLoop, hc, hd, hzd]
              · obtain ⟨j, hjj⟩ := hj
                exact ⟨j, by simpa [rekeyLoop, hc, hd] using hjj⟩
              · simp [rekeyLoop, hc, hd, hus]
              · simp [rekeyLoop, hc, hd, hrk]

/- ---------------------------------------------------------------------
C3
--------------------------------------------------------------------- -/

/-- C3: on a successful rekey attempt the worker performs, in this order,
the atomic store of the new cipher, the atomic store `usage = 0`, the
zeroization of the previously active cipher (`zeroed = some p.cipher`,
the cipher captured by the load at that attempt), the deferred clearing of
the `rekeying` latch, and terminates — everything before the final four
events is backoff sleeps, and the cipher stored is the one produced by the
successful `newCipher()` call; moreover, on every exit path (success,
exhaustion, or panic unwind) the latch ends cleared and the trace ends
with the latch-clearing store. -/
theorem claim_C3_success_order_and_latch (O : RekeyOracle) (p : Prng)
    (h : (asyncRekey O p).zeroed.isSome = true) :
    (∃ pre, (∀ e ∈ pre, ∃ d, e = REvent.sleep d) ∧
      (asyncRekey O p).events =
        pre ++ [REvent.storeCipher, REvent.storeUsageZero, REvent.zeroOld,
          REvent.clearRekeying] ∧
      (asyncRekey O p).zeroed = some p.cipher ∧
      (∃ j, O.cipher j = some (asyncRekey O p).p.cipher) ∧
      (asyncRekey O p).p.usage = 0 ∧
      (asyncRekey O p).p.rekeying = false) ∧
    (∀ O' p', (asyncRekey O' p').p.rekeying = false ∧
      (asyncRekey O' p').events.getLast? = some REvent.clearRekeying) := by
  obtain ⟨pre, hsl, hev, hzd, hj, hus, -⟩ :=
    rekeyLoop_success O (maxEff p.config) p p.config.MaxRekeyAttempts.toNat 0
      p.config.RekeyBackoff h
  constructor
  · refine ⟨pre, hsl, ?_, hzd, hj, hus, rfl⟩
    show (rekeyLoop O (maxEff p.config) p p.config.MaxRekeyAttempts.toNat 0
        p.config.RekeyBackoff).events ++ [REvent.clearRekeying] = _
    rw [hev]
    simp
  · intro O' p'
    refine ⟨rfl, ?_⟩
    show ((rekeyLoop O' (maxEff p'.config) p' p'.config.MaxRekeyAttempts.toNat
        0 p'.config.RekeyBackoff).events ++
        [REvent.clearRekeying]).getLast? = some REvent.clearRekeying
    exact List.getLast?_concat _

/-- Witness for C3: a first-attempt success produces exactly the four
ordered events and leaves the latch clear. -/
theorem claim_C3_witness :
    (asyncRekey exOracleOk exPrng62).events =
      [REvent.storeCipher, REvent.storeUsageZero, REvent.zeroOld,
        REvent.clearRekeying] ∧
    (asyncRekey exOracleOk exPrng62).p.rekeying = false := by
  obtain ⟨⟨pre, -, -, -, -, -, hrk⟩, -⟩ :=
    claim_C3_success_order_and_latch exOracleOk exPrng62 rfl
  exact ⟨by decide, hrk⟩

/- ---------------------------------------------------------------------
C8
--------------------------------------------------------------------- -/

/-- Counterexample to C8 as stated: with `rekey_backoff = 3` ns and
`max_rekey_backoff = 2` ns, the sleep after the 0th failed attempt uses
base 3 — not `min(rekey_backoff · 2^0, max_rekey_backoff) = 2` as the
claim's closed form requires (the initial base is never clamped). -/
theorem claim_C8_counterexample :
    (asyncRekey exOracleFailNoDraw exPrngB).events =
      [REvent.sleep 3, REvent.clearRekeying] ∧
    ¬((3 : Int) = min (3 * 2 ^ 0) 2) := ⟨by decide, by decide⟩

/-- C8 (amended): provided `0 < rekey_backoff ≤ M < 2^62` ns, where `M` is
`max_rekey_backoff` with the 2 s library default substituted when it is 0
(so that no `int64` wrapping occurs and the initial base is already
clamped), a run whose first `max_rekey_attempts` cipher constructions all
fail sleeps exactly once per failed attempt, the `k`-th sleep lasting
`base_k + (rnd mod base_k)` with `base_k = min(rekey_backoff · 2^k, M)`
and `rnd` the 8 drawn bytes read big-endian — or exactly `base_k` when the
entropy draw fails — makes no further attempts, and exits leaving the
existing cipher and usage in place with the latch cleared and no panic. -/
theorem claim_C8_backoff_formula (O : RekeyOracle) (p : Prng)
    (hr : 0 < p.config.RekeyBackoff)
    (hrm : p.config.RekeyBackoff ≤ maxEff p.config)
    (hm : maxEff p.config < 2 ^ 62)
    (hfail : ∀ k, k < p.config.MaxRekeyAttempts.toNat → O.cipher k = none) :
    (asyncRekey O p).events =
      (List.range p.config.MaxRekeyAttempts.toNat).map (fun k =>
        REvent.sleep (sleepD O k
          (min (p.config.RekeyBackoff * 2 ^ k) (maxEff p.config)))) ++
      [REvent.clearRekeying] ∧
    (∀ k g base, O.draw k = some g →
      sleepD O k base = base + Int.ofNat (beUint64 g % base.toNat)) ∧
    (∀ k base, O.draw k = none → sleepD O k base = base) ∧
    (asyncRekey O p).p.cipher = p.cipher ∧
    (asyncRekey O p).p.usage = p.usage ∧
    (asyncRekey O p).p.rekeying = false ∧
    (asyncRekey O p).panicked = false := by
  have hfail' : ∀ k, k < p.config.MaxRekeyAttempts.toNat →
      O.cipher (0 + k) = none := by
    intro k hk
    rw [Nat.zero_add]
    exact hfail k hk
  have hloop := rekeyLoop_all_fail O (maxEff p.config) p hm
    p.config.MaxRekeyAttempts.toNat 0 p.config.RekeyBackoff hr hrm hfail'
  refine ⟨?_, fun k g base hdx => by simp [sleepD, hdx],
    fun k base hdx => by simp [sleepD, hdx], ?_, ?_, rfl, ?_⟩
  · show (rekeyLoop O (maxEff p.config) p p.config.MaxRekeyAttempts.toNat 0
        p.config.RekeyBackoff).events ++ [REvent.clearRekeying] = _
    rw [hloop]
    refine congrArg (· ++ [REvent.clearRekeying]) (List.map_congr_left ?_)
    intro k _
    rw [Nat.zero_add]
  · show (rekeyLoop O (maxEff p.config) p p.config.MaxRekeyAttempts.toNat 0
        p.config.RekeyBackoff).p.cipher = p.cipher
    rw [hloop]
  · show (rekeyLoop O (maxEff p.config) p p.config.MaxRekeyAttempts.toNat 0
        p.config.RekeyBackoff).p.usage = p.usage
    rw [hloop]
  · show (rekeyLoop O (maxEff p.config) p p.config.MaxRekeyAttempts.toNat 0
        p.config.RekeyBackoff).panicked = false
    rw [hloop]

/-- Witness for C8 (amended): backoff 1 ns, max 4 ns, two failing
attempts, no entropy: the worker sleeps 1 ns then 2 ns and exits with the
original cipher. -/
theorem claim_C8_witness :
    (asyncRekey exOracleFailNoDraw exPrngBk).events =
      [REvent.sleep 1, REvent.sleep 2, REvent.clearRekeying] ∧
    (asyncRekey exOracleFailNoDraw exPrngBk).p.cipher = exPrngBk.cipher := by
  have h := claim_C8_backoff_formula exOracleFailNoDraw exPrngBk (by decide)
    (by decide) (by decide) (fun k _ => rfl)
  refine ⟨?_, h.2.2.2.1⟩
  rw [h.1]
  decide

/- ---------------------------------------------------------------------
C9
--------------------------------------------------------------------- -/

/-- Counterexample to C9 as stated: `RekeyBackoff > 0` does not make the
worker total.  With `RekeyBackoff = MaxRekeyBackoff = 2^62` ns and three
failing attempts, the doubled backoff wraps `int64` (`2^62 → -2^63 → 0`),
so the third jitter computation divides by `uint64(0)` and the goroutine
panics even though the configured backoff is positive. -/
theorem claim_C9_counterexample :
    0 < exCfg62.RekeyBackoff ∧
    (asyncRekey exOracleFail exPrng62).panicked = true := ⟨by decide, by decide⟩

/-- C9 (amended): the rekey worker substitutes the 2 s library default
only for `MaxRekeyBackoff` when that field is 0, never for `RekeyBackoff`;
with `RekeyBackoff = 0`, any run whose first attempt fails with a
successful 8-byte entropy draw divides by zero (`rnd % uint64(0)`); and
`RekeyBackoff > 0` prevents the division by zero provided the backoff
cannot wrap `int64` — `RekeyBackoff ≤ M < 2^62` ns for the effective
maximum `M` — which holds for all default-range configurations. -/
theorem claim_C9_division_by_zero :
    (∀ (O : RekeyOracle) (p : Prng), p.config.RekeyBackoff = 0 →
      0 < p.config.MaxRekeyAttempts → O.cipher 0 = none →
      (O.draw 0).isSome = true → (asyncRekey O p).panicked = true) ∧
    (∀ (O : RekeyOracle) (p : Prng), 0 < p.config.RekeyBackoff →
      p.config.RekeyBackoff ≤ maxEff p.config →
      maxEff p.config < 2 ^ 62 → (asyncRekey O p).panicked = false) ∧
    (∀ cfg : Config, cfg.MaxRekeyBackoff = 0 →
      maxEff cfg = maxRekeyBackoffD) ∧
    (∀ cfg : Config, ¬(cfg.MaxRekeyBackoff = 0) →
      maxEff cfg = cfg.MaxRekeyBackoff) := by
  refine ⟨?_, ?_, fun cfg hz => by simp [maxEff, hz],
    fun cfg hz => by simp [maxEff, hz]⟩
  · intro O p hr hatt hc hd
    obtain ⟨g, hg⟩ := Option.isSome_iff_exists.mp hd
    obtain ⟨m, hm⟩ : ∃ m, p.config.MaxRekeyAttempts.toNat = m + 1 :=
      ⟨p.config.MaxRekeyAttempts.toNat - 1, by omega⟩
    show (rekeyLoop O (maxEff p.config) p p.config.MaxRekeyAttempts.toNat 0
        p.config.RekeyBackoff).panicked = true
    rw [hm, hr]
    simp [rekeyLoop, hc, hg, toU64]
  · intro O p hr hrm hm
    show (rekeyLoop O (maxEff p.config) p p.config.MaxRekeyAttempts.toNat 0
        p.config.RekeyBackoff).panicked = false
    exact rekeyLoop_no_panic O (maxEff p.config) p hm _ 0
      p.config.RekeyBackoff hr hrm

/-- Witness for C9 (amended): at a concrete zero-backoff config the first
failed attempt with a successful draw panics, and the default config's
positive backoff never panics. -/
theorem claim_C9_witness :
    (asyncRekey exOracleFail exPrngZero).panicked = true ∧
    (asyncRekey exOracleFail exPrng).panicked = false := by
  constructor
  · exact (claim_C9_division_by_zero).1 exOracleFail exPrngZero rfl
      (by decide) rfl rfl
  · exact (claim_C9_division_by_zero).2.1 exOracleFail exPrng (by decide)
      (by decide) (by decide)

end PrngChacha
